import Mathlib

/-!
Verification development for the tiktok-to-trip repository.

This file gives a shallow embedding of the pipeline implemented in
`src/backend/content_extractor.py`, `src/backend/ai_pipeline.py`,
`src/backend/places_enrichment.py` and `src/backend/main.py`, and proves or
refutes the frozen claims about it.  External effects (subprocess calls, HTTP
requests, the LLM completion service, `json.loads`) are modelled as oracle
functions supplied through environment records; everything the repository
itself computes is translated directly from the Python source.
-/

set_option maxHeartbeats 1000000
set_option linter.unusedVariables false

/-! ## String helpers (Python `in`, `str.lower`, `str.strip`) -/

/-- Python `pat in s` on lists of characters: `pat` occurs as a contiguous
substring of `s`. -/
def listContains (pat : List Char) : List Char → Bool
  | [] => pat.isPrefixOf []
  | c :: rest => pat.isPrefixOf (c :: rest) || listContains pat rest

/-- Python `pat in s` for strings. -/
def strContains (s pat : String) : Bool :=
  listContains pat.toList s.toList

/-- Python `str.lower()` on one character (ASCII part). -/
def pyLowerChar (c : Char) : Char :=
  if 'A' <= c && c <= 'Z' then Char.ofNat (c.toNat + 32) else c

/-- Python `url.lower()` (the URLs compared against are all ASCII). -/
def pyLower (s : String) : String :=
  String.mk (s.toList.map pyLowerChar)

/-- The whitespace characters stripped by Python `str.strip()` (ASCII part). -/
def isSpc (c : Char) : Bool :=
  c = ' ' || c = '\t' || c = '\n' || c = '\r' || c = '\x0b' || c = '\x0c'

/-- Python `line.strip()`: drop whitespace from both ends. -/
def pyStrip (l : List Char) : List Char :=
  (l.dropWhile isSpc).rdropWhile isSpc

/-! ## Content resolver: platform classification
(`content_extractor.py`, `extract_content_from_url`, lines 22-31) -/

inductive Platform where
  | tiktok
  | instagram
  | youtube
deriving DecidableEq, Repr

/-- The platform dispatch of `extract_content_from_url`: substring match on the
lowercased URL, in source order (TikTok branch, then Instagram, then YouTube);
no match returns `none` (Python `None`). -/
def classify_platform (url : String) : Option Platform :=
  let u := pyLower url
  if strContains u "tiktok.com" || strContains u "vm.tiktok.com" then
    some Platform.tiktok
  else if strContains u "instagram.com" then
    some Platform.instagram
  else if strContains u "youtube.com" || strContains u "youtu.be" then
    some Platform.youtube
  else
    none

/-! ## Subtitle cleaning (`content_extractor.py`, `clean_subtitles`, lines 265-295) -/

/-- Python `content.split('\n')` (keeps empty pieces; `"".split` gives `[""]`). -/
def splitLines : List Char → List (List Char)
  | [] => [[]]
  | c :: rest =>
    if c = '\n' then [] :: splitLines rest
    else
      match splitLines rest with
      | r :: rs => (c :: r) :: rs
      | [] => [[c]]

/-- Python `' '.join(pieces)`. -/
def joinSp : List (List Char) → List Char
  | [] => []
  | [p] => p
  | p :: q :: ps => p ++ ' ' :: joinSp (q :: ps)

/-- Does the list start with the three characters of `-->`? -/
def startsArrow : List Char → Bool
  | c :: d :: e :: _ => c = '-' && d = '-' && e = '>'
  | _ => false

/-- Python `'-->' in line`. -/
def hasArrow : List Char → Bool
  | [] => false
  | c :: rest => startsArrow (c :: rest) || hasArrow rest

/-- The characters of `WEBVTT`. -/
def webvttChars : List Char := ['W', 'E', 'B', 'V', 'T', 'T']

/-- Python `line.startswith('WEBVTT')`. -/
def startsWEBVTT (l : List Char) : Bool :=
  webvttChars.isPrefixOf l

/-- Python `line.isdigit()`: nonempty and all digits. -/
def isDigits (l : List Char) : Bool :=
  !l.isEmpty && l.all Char.isDigit

/-- Python `re.match(r'^\d\x7b2\x7d:\d\x7b2\x7d', line)`: the first five
characters are digit, digit, colon, digit, digit. -/
def timingMatch (l : List Char) : Bool :=
  match l.take 5 with
  | [a, b, c, d, e] => a.isDigit && b.isDigit && c = ':' && d.isDigit && e.isDigit
  | _ => false

/-- Can the tag regex match at a `<` whose remainder is `rest`: at least one
non-`>` character followed by a `>`. -/
def tagAt : List Char → Bool
  | [] => false
  | d :: rest => d != '>' && (d :: rest).contains '>'

/-- One fuel-indexed step list for `re.sub(r'<[^>]+>', '', line)`: scan left to
right; at a `<` that has a later `>` (with at least one character in between),
drop through the first such `>` and continue after it.  The fuel starts at the
length of the list, which bounds the number of scan steps. -/
def removeTagsF : Nat → List Char → List Char
  | 0, l => l
  | _ + 1, [] => []
  | fuel + 1, c :: rest =>
    if c = '<' && tagAt rest then
      removeTagsF fuel ((rest.dropWhile (fun x => x != '>')).drop 1)
    else
      c :: removeTagsF fuel rest

/-- Python `re.sub(r'<[^>]+>', '', line)`. -/
def removeTags (l : List Char) : List Char :=
  removeTagsF l.length l

/-- The characters of the entity `&nbsp;`. -/
def nbspChars : List Char := ['&', 'n', 'b', 's', 'p', ';']

/-- Fuel-indexed scan for `re.sub(r'&nbsp;', ' ', line)`: at each position,
replace the six-character entity with a single space and continue after it,
else emit the character.  The fuel starts at the length of the list, which
bounds the number of scan steps. -/
def replaceNbspF : Nat → List Char → List Char
  | 0, l => l
  | _ + 1, [] => []
  | fuel + 1, c :: rest =>
    if nbspChars.isPrefixOf (c :: rest) then ' ' :: replaceNbspF fuel ((c :: rest).drop 6)
    else c :: replaceNbspF fuel rest

/-- Python `re.sub(r'&nbsp;', ' ', line)`. -/
def replaceNbsp (l : List Char) : List Char :=
  replaceNbspF l.length l

/-- The per-line body of `clean_subtitles`: strip, skip timing/header/index
lines, remove HTML tags and `&nbsp;` entities, keep the line if nonempty. -/
def processLine (l : List Char) : Option (List Char) :=
  let s := pyStrip l
  if s.isEmpty then none
  else if hasArrow s then none
  else if startsWEBVTT s then none
  else if isDigits s then none
  else if timingMatch s then none
  else
    let t := replaceNbsp (removeTags s)
    if t.isEmpty then none else some t

/-- `clean_subtitles` on character lists: split on newlines, process each line,
join the survivors with single spaces. -/
def cleanL (content : List Char) : List Char :=
  joinSp ((splitLines content).filterMap processLine)

/-- `clean_subtitles(content, format)` from `content_extractor.py`.  The
`format` argument is accepted and unused, exactly as in the source. -/
def clean_subtitles (content : String) (format : String) : String :=
  String.mk (cleanL content.toList)

example : clean_subtitles "WEBVTT\n\n00:01.000 --> 00:02.000\nhello <b>world</b>\n2\nbye" "vtt" = "hello world bye" := by rfl

example : clean_subtitles "&nbsp;a" "vtt" = " a" := by rfl

example : clean_subtitles " a" "vtt" = "a" := by rfl

/-! ## Itinerary synthesizer (`ai_pipeline.py`, `generate_itinerary`, lines 79-164)

The external text-generation call and Python's `json.loads` are black boxes to
this repository; they enter the model as an `Except`-valued call result and a
`parse` oracle.  `parse` returns the parsed top-level JSON object (the
association list of its fields) or `none` when `json.loads` raises
`json.JSONDecodeError` or yields a non-object. -/

/-- A JSON value. -/
inductive JVal where
  | null
  | bool (b : Bool)
  | num (n : Int)
  | str (s : String)
  | arr (elems : List JVal)
  | obj (fields : List (String × JVal))

/-- A parsed JSON object: its fields in order. -/
abbrev Jobj := List (String × JVal)

/-- Python `result[key]` / `result.get(key)`: first binding of `key`. -/
def getKey : Jobj → String → Option JVal
  | [], _ => none
  | (k, v) :: rest, key => if k = key then some v else getKey rest key

/-- Python `key in result`. -/
def hasKey (o : Jobj) (k : String) : Bool :=
  (getKey o k).isSome

/-- Python `result[key] = v`: replace the binding in place, else append. -/
def setKey : Jobj → String → JVal → Jobj
  | [], k, v => [(k, v)]
  | (k', v') :: rest, k, v =>
    if k' = k then (k, v) :: rest else (k', v') :: setKey rest k v

/-- Python `len` on a JSON value (`str`, `list`, `dict`); `none` models the
`TypeError` raised on other values. -/
def pyLen : JVal → Option Int
  | JVal.str s => some s.length
  | JVal.arr l => some l.length
  | JVal.obj f => some f.length
  | _ => none

/-- Lines 135-136 and 158-159: stamp `source_url` and `source_creator` onto the
parsed result. -/
def stampSource (o : Jobj) (source_url creator : String) : Jobj :=
  setKey (setKey o "source_url" (JVal.str source_url)) "source_creator" (JVal.str creator)

/-- Python `if key not in result: result[key] = v`. -/
def ensureKey (o : Jobj) (k : String) (v : JVal) : Jobj :=
  if hasKey o k then o else setKey o k v

/-- Lines 134-148: stamp the source fields, then default `days`,
`duration_days`, `packing_tips` and `local_phrases` when absent.  Returns
`none` when `len(result['days'])` raises (non-sizable `days` value), which the
blanket `except Exception` of the source turns into a `GenerationError`. -/
def postProcess (o : Jobj) (source_url creator : String) : Option Jobj :=
  let r2 := ensureKey (stampSource o source_url creator) "days" (JVal.arr [])
  let durStep : Option Jobj :=
    if hasKey r2 "duration_days" then some r2
    else
      match getKey r2 "days" with
      | some v => (pyLen v).map (fun n => setKey r2 "duration_days" (JVal.num n))
      | none => none
  durStep.map (fun r3 =>
    ensureKey (ensureKey r3 "packing_tips" (JVal.arr [])) "local_phrases" (JVal.arr []))

/-- Truncate after the last `\x7d` of the list (used by the recovery regex). -/
def upToLastRbrace (l : List Char) : List Char :=
  (l.reverse.dropWhile (fun c => c != '}')).reverse

/-- Line 155, `re.search(r'\x7b[\s\S]*\x7d', raw_content)`: the greedy match
runs from the first `\x7b` that has a later `\x7d` up to the last `\x7d` of the
text; `none` when no such pair exists. -/
def extractBracesL : List Char → Option (List Char)
  | [] => none
  | c :: rest =>
    if c = '{' && rest.contains '}' then some ('{' :: upToLastRbrace rest)
    else extractBracesL rest

/-- String version of `extractBracesL`. -/
def extractBraces (s : String) : Option String :=
  (extractBracesL s.toList).map String.mk

/-- How a synthesis attempt fails (every case surfaces as an HTTP 500, the
spec's `GenerationError`). -/
inductive GenError where
  | generationFailed
  | parseFailed
  | jsonDecodeError
deriving DecidableEq, Repr

/-- `generate_itinerary` (lines 114-164), given the outcome of the completion
call (`Except.error` models an exception from the client) and the `json.loads`
oracle.  The `source_url` argument is the request URL; `creator` is
`content_data.get('creator', '')`.

* call failed: the blanket `except Exception` raises `ValueError("AI generation
  failed")`;
* strict parse succeeded: post-process (defaults plus stamps);
* strict parse failed: find the first brace-delimited substring and re-parse
  it, stamping only `source_url`/`source_creator` on success; a failed
  re-parse lets `json.JSONDecodeError` escape, and no brace match raises
  `ValueError("Failed to parse AI response as JSON")`. -/
def generate_itinerary (parse : String → Option Jobj) (callResult : Except String String)
    (source_url creator : String) : Except GenError Jobj :=
  match callResult with
  | Except.error _ => Except.error GenError.generationFailed
  | Except.ok text =>
    match parse text with
    | some o =>
      match postProcess o source_url creator with
      | some r => Except.ok r
      | none => Except.error GenError.generationFailed
    | none =>
      match extractBraces text with
      | some sub =>
        match parse sub with
        | some o => Except.ok (stampSource o source_url creator)
        | none => Except.error GenError.jsonDecodeError
      | none => Except.error GenError.parseFailed

/-! ## Location enricher (`places_enrichment.py`)

The Google Places HTTP calls are oracles in a `PlacesEnv`; everything else
(truthiness tests, result selection, field merging, price-tier translation) is
translated from the source.  `rating` is a JSON number; it is only ever copied,
never computed with, and is modelled as `Rat`. -/

/-- Python truthiness of an optional string (`None` and `""` are falsy). -/
def strTruthy : Option String → Bool
  | none => false
  | some s => !(s == "")

/-- Python `f"..."` interpolation of a value that may be `None`. -/
def pyOptStr : Option String → String
  | none => "None"
  | some s => s

/-- A text-search result entry (`data['results'][i]`); only `place_id` is
consumed by the source. -/
structure PlaceResult where
  place_id : Option String
deriving DecidableEq, Repr

/-- The body of a text-search response. -/
structure SearchResp where
  status : Option String
  results : List PlaceResult
deriving DecidableEq, Repr

/-- `geometry.location` of a details result. -/
structure LatLng where
  lat : Option Rat
  lng : Option Rat
deriving DecidableEq, Repr

/-- `geometry` of a details result. -/
structure Geometry where
  location : Option LatLng
deriving DecidableEq, Repr

/-- One entry of `details['photos']`. -/
structure Photo where
  photo_reference : Option String
deriving DecidableEq, Repr

/-- `details['opening_hours']`; `none` in the enclosing `Option` models an
absent, `None` or empty (falsy) value. -/
structure OpeningHoursInfo where
  weekday_text : List String
deriving DecidableEq, Repr

/-- The fields of a place-details result consumed by the source. -/
structure Details where
  formatted_address : Option String
  geometry : Option Geometry
  rating : Option Rat
  price_level : Option Int
  photos : List Photo
  opening_hours : Option OpeningHoursInfo
  url : Option String
deriving DecidableEq, Repr

/-- The body of a details response. -/
structure DetailsResp where
  status : Option String
  result : Option Details
deriving DecidableEq, Repr

/-- The external state of the enricher: the configured credential and the two
HTTP calls.  `textSearch` receives the query and the optional `type` parameter;
`detailsFetch` receives the `place_id`.  An `Except.error` models an exception
raised by the call (network failure, timeout, unparsable body). -/
structure PlacesEnv where
  apiKey : Option String
  textSearch : String → Option String → Except String SearchResp
  detailsFetch : String → Except String DetailsResp

/-- A `Location` record of the itinerary (a JSON object with this schema). -/
structure Location where
  name : Option String
  type : Option String
  description : Option String
  address : Option String
  coordinates : Option (Option Rat × Option Rat)
  rating : Option Rat
  price_level : Option String
  image_url : Option String
  booking_url : Option String
  tips : Option String
  opening_hours : Option (List String)
  google_maps_url : Option String
deriving DecidableEq, Repr

/-- A `DayPlan` record. -/
structure DayPlan where
  day : Option Int
  title : Option String
  locations : List Location
  notes : Option String
deriving DecidableEq, Repr

/-- An `Itinerary` record (the fields the enricher reads or passes through). -/
structure Itinerary where
  destination : Option String
  duration_days : Option Int
  summary : Option String
  vibe : Option String
  source_url : Option String
  source_creator : Option String
  days : List DayPlan
  packing_tips : List String
deriving DecidableEq, Repr

/-- `convert_price_level` (lines 162-176): Google's 0-4 scale to `$` labels via
`mapping.get(level, None)`; `None` input stays `None`. -/
def price_mapping : List (Int × String) :=
  [(0, "Free"), (1, "$"), (2, "$$"), (3, "$$$"), (4, "$$$$")]

/-- `mapping.get(key, None)` on the price table. -/
def priceLookup : List (Int × String) → Int → Option String
  | [], _ => none
  | (k, v) :: rest, n => if k = n then some v else priceLookup rest n

/-- `convert_price_level(google_price_level)`. -/
def convert_price_level : Option Int → Option String
  | none => none
  | some n => priceLookup price_mapping n

/-- The `type_mapping` table of `search_place` (lines 94-100). -/
def type_mapping : List (String × String) :=
  [("restaurant", "restaurant"), ("attraction", "tourist_attraction"),
   ("hotel", "lodging"), ("activity", "point_of_interest"),
   ("neighborhood", "neighborhood")]

/-- Lookup in `type_mapping`. -/
def typeLookup : List (String × String) → String → Option String
  | [], _ => none
  | (k, v) :: rest, t => if k = t then some v else typeLookup rest t

/-- Lines 101-102: the `type` request parameter, present only when
`location_type` is truthy and a key of `type_mapping`. -/
def mappedType : Option String → Option String
  | none => none
  | some t => if t = "" then none else typeLookup type_mapping t

/-- `search_place(query, location_type)` (lines 79-119): no-op without a
credential; any exception from the call is caught and becomes `None`; else the
first result when the response has status `OK` and a nonempty result list. -/
def search_place (env : PlacesEnv) (query : String) (location_type : Option String) :
    Option PlaceResult :=
  if !strTruthy env.apiKey then none
  else
    match env.textSearch query (mappedType location_type) with
    | Except.error _ => none
    | Except.ok data =>
      if data.status = some "OK" then
        match data.results with
        | r :: _ => some r
        | [] => none
      else none

/-- `get_place_details(place_id)` (lines 122-152): no-op without a credential
or a falsy `place_id`; exceptions become `None`; else the `result` field when
the response status is `OK`. -/
def get_place_details (env : PlacesEnv) (place_id : Option String) : Option Details :=
  if !strTruthy env.apiKey || !strTruthy place_id then none
  else
    match place_id with
    | none => none
    | some pid =>
      match env.detailsFetch pid with
      | Except.error _ => none
      | Except.ok data =>
        if data.status = some "OK" then data.result else none

/-- `get_photo_url(photo_reference, max_width)` (lines 155-159). -/
def get_photo_url (photo_reference : String) (max_width : Int) (apiKey : Option String) : String :=
  "https://maps.googleapis.com/maps/api/place/photo?maxwidth=" ++ toString max_width ++
    "&photo_reference=" ++ photo_reference ++ "&key=" ++ pyOptStr apiKey

/-- `details.get('geometry', \x7b\x7d).get('location', \x7b\x7d).get('lat')`. -/
def geoLat (d : Details) : Option Rat :=
  match d.geometry with
  | none => none
  | some g =>
    match g.location with
    | none => none
    | some ll => ll.lat

/-- Same chain for `lng`. -/
def geoLng (d : Details) : Option Rat :=
  match d.geometry with
  | none => none
  | some g =>
    match g.location with
    | none => none
    | some ll => ll.lng

/-- The search query of line 43: `f"\x7blocation.get('name')\x7d \x7bdestination\x7d"`. -/
def searchQuery (loc : Location) (destination : String) : String :=
  pyOptStr loc.name ++ " " ++ destination

/-- The merge step of `enrich_single_location` (lines 51-70), applied once the
details fetch succeeded: `address` falls back to the prior value when the
details lack one; `coordinates`, `rating`, `price_level` and the maps URL are
overwritten unconditionally; the photo URL and opening hours are set only when
present (and a falsy `photo_reference` is skipped). -/
def mergeDetails (loc : Location) (d : Details) (apiKey : Option String) : Location :=
  let loc1 := { loc with
    address := match d.formatted_address with
               | some a => some a
               | none => loc.address,
    coordinates := some (geoLat d, geoLng d),
    rating := d.rating,
    price_level := convert_price_level d.price_level,
    google_maps_url := d.url }
  let loc2 :=
    match d.photos with
    | [] => loc1
    | ph :: _ =>
      match ph.photo_reference with
      | some ref =>
        if ref = "" then loc1
        else { loc1 with image_url := some (get_photo_url ref 800 apiKey) }
      | none => loc1
  match d.opening_hours with
  | some oh => { loc2 with opening_hours := some oh.weekday_text }
  | none => loc2

/-- `enrich_single_location(location, destination)` (lines 33-76): no-op
without a credential; a failed search or details fetch leaves the location
unchanged; otherwise merge the details. -/
def enrich_single_location (env : PlacesEnv) (loc : Location) (destination : String) : Location :=
  if !strTruthy env.apiKey then loc
  else
    match search_place env (searchQuery loc destination) loc.type with
    | none => loc
    | some place =>
      match get_place_details env place.place_id with
      | none => loc
      | some details => mergeDetails loc details env.apiKey

/-- `enrich_locations(itinerary)` (lines 14-30): no-op without a credential;
otherwise every day's location list is rebuilt in order from the per-location
enrichment. -/
def enrich_locations (env : PlacesEnv) (itin : Itinerary) : Itinerary :=
  if !strTruthy env.apiKey then itin
  else
    { itin with days := itin.days.map (fun d =>
        { d with locations := d.locations.map (fun loc =>
            enrich_single_location env loc (itin.destination.getD "")) }) }

/-! ## HTTP endpoint (`main.py`, `extract_itinerary`, lines 103-153) -/

/-- The request body of `POST /api/extract`. -/
structure TripRequest where
  url : String
  trip_duration : Option Int
  preferences : Option String

/-- The canonical content record produced by the resolver (the fields the
endpoint and the synthesizer consume). -/
structure ContentRecord where
  platform : String
  title : String
  description : String
  transcript : Option String
  creator : Option String

/-- The HTTP error statuses the endpoint can raise. -/
inductive ApiError where
  | badRequest400
  | unprocessable422
  | serverError500
deriving DecidableEq, Repr

/-- The external state of one request: the two credentials, the resolver (a
network/subprocess call chain), the completion call (prompt construction and
the LLM call collapsed into one oracle, since no claim concerns the prompt
text), the `json.loads` oracle and the enrichment stage at the JSON level. -/
structure AppEnv where
  openai_key : Option String
  places_key : Option String
  resolve : String → Option ContentRecord
  chatCall : ContentRecord → TripRequest → Except String String
  parse : String → Option Jobj
  enrichJson : Jobj → Jobj

/-- Line 110: `any(domain in request.url.lower() for domain in ['tiktok.com',
'instagram.com', 'youtube.com', 'vm.tiktok.com'])`. -/
def validDomain (url : String) : Bool :=
  strContains (pyLower url) "tiktok.com" || strContains (pyLower url) "instagram.com" ||
    strContains (pyLower url) "youtube.com" || strContains (pyLower url) "vm.tiktok.com"

/-- `extract_itinerary(request)`: reject unsupported domains with 400 before
anything else runs; 500 when the generation credential is missing; 422 when
resolution yields nothing; 500 when synthesis fails; otherwise the itinerary,
enriched only when the places credential is configured. -/
def extract_itinerary (env : AppEnv) (req : TripRequest) : Except ApiError Jobj :=
  if !validDomain req.url then Except.error ApiError.badRequest400
  else if !strTruthy env.openai_key then Except.error ApiError.serverError500
  else
    match env.resolve req.url with
    | none => Except.error ApiError.unprocessable422
    | some content =>
      match generate_itinerary env.parse (env.chatCall content req) req.url
          ((content.creator).getD "") with
      | Except.error _ => Except.error ApiError.serverError500
      | Except.ok itin =>
        if strTruthy env.places_key then Except.ok (env.enrichJson itin)
        else Except.ok itin

/-! ## Association-list lemmas for the JSON model -/

theorem getKey_setKey_same (o : Jobj) (k : String) (v : JVal) :
    getKey (setKey o k v) k = some v := by
  induction o with
  | nil => simp [setKey, getKey]
  | cons kv rest ih =>
    obtain ⟨k', v'⟩ := kv
    by_cases h : k' = k <;> simp [setKey, getKey, h, ih]

theorem getKey_setKey_ne (o : Jobj) (k k2 : String) (v : JVal) (h : k ≠ k2) :
    getKey (setKey o k2 v) k = getKey o k := by
  induction o with
  | nil => simp [setKey, getKey, Ne.symm h]
  | cons kv rest ih =>
    obtain ⟨k', v'⟩ := kv
    by_cases h' : k' = k2
    · subst h'
      simp [setKey, getKey, Ne.symm h]
    · by_cases h'' : k' = k <;> simp [setKey, getKey, h, h', h'', ih]

theorem hasKey_setKey_ne (o : Jobj) (k k2 : String) (v : JVal) (h : k ≠ k2) :
    hasKey (setKey o k2 v) k = hasKey o k := by
  simp [hasKey, getKey_setKey_ne o k k2 v h]

theorem getKey_ensureKey_ne (o : Jobj) (k k2 : String) (v : JVal) (h : k ≠ k2) :
    getKey (ensureKey o k2 v) k = getKey o k := by
  unfold ensureKey
  split
  · rfl
  · exact getKey_setKey_ne o k k2 v h

theorem hasKey_ensureKey_ne (o : Jobj) (k k2 : String) (v : JVal) (h : k ≠ k2) :
    hasKey (ensureKey o k2 v) k = hasKey o k := by
  simp [hasKey, getKey_ensureKey_ne o k k2 v h]

theorem getKey_ensureKey_absent (o : Jobj) (k : String) (v : JVal)
    (h : hasKey o k = false) : getKey (ensureKey o k v) k = some v := by
  simp [ensureKey, h, getKey_setKey_same]

theorem ensureKey_present (o : Jobj) (k : String) (v : JVal)
    (h : hasKey o k = true) : ensureKey o k v = o := by
  simp [ensureKey, h]

/-! ## Enrichment helper lemmas -/

theorem enrich_single_of_key_falsy (env : PlacesEnv) (loc : Location) (dest : String)
    (h : strTruthy env.apiKey = false) : enrich_single_location env loc dest = loc := by
  simp [enrich_single_location, h]

theorem enrich_single_of_search_none (env : PlacesEnv) (loc : Location) (dest : String)
    (h : search_place env (searchQuery loc dest) loc.type = none) :
    enrich_single_location env loc dest = loc := by
  unfold enrich_single_location
  rw [h]
  split <;> rfl

theorem enrich_single_of_details_none (env : PlacesEnv) (loc : Location) (dest : String)
    (p : PlaceResult) (hs : search_place env (searchQuery loc dest) loc.type = some p)
    (hd : get_place_details env p.place_id = none) :
    enrich_single_location env loc dest = loc := by
  unfold enrich_single_location
  simp [hs, hd]

theorem enrich_single_of_details_some (env : PlacesEnv) (loc : Location) (dest : String)
    (p : PlaceResult) (d : Details)
    (hs : search_place env (searchQuery loc dest) loc.type = some p)
    (hd : get_place_details env p.place_id = some d)
    (hk : strTruthy env.apiKey = true) :
    enrich_single_location env loc dest = mergeDetails loc d env.apiKey := by
  unfold enrich_single_location
  simp [hs, hd, hk]

theorem mergeDetails_address (loc : Location) (d : Details) (key : Option String) :
    (mergeDetails loc d key).address =
      match d.formatted_address with
      | some a => some a
      | none => loc.address := by
  unfold mergeDetails
  dsimp only
  repeat' split
  all_goals rfl

theorem mergeDetails_rating (loc : Location) (d : Details) (key : Option String) :
    (mergeDetails loc d key).rating = d.rating := by
  unfold mergeDetails
  dsimp only
  repeat' split
  all_goals rfl

theorem mergeDetails_price (loc : Location) (d : Details) (key : Option String) :
    (mergeDetails loc d key).price_level = convert_price_level d.price_level := by
  unfold mergeDetails
  dsimp only
  repeat' split
  all_goals rfl

theorem search_place_of_error (env : PlacesEnv) (q : String) (t : Option String) (e : String)
    (h : env.textSearch q (mappedType t) = Except.error e) :
    search_place env q t = none := by
  unfold search_place
  simp [h]

theorem get_place_details_of_error (env : PlacesEnv) (pid : String) (e : String)
    (h : env.detailsFetch pid = Except.error e) :
    get_place_details env (some pid) = none := by
  unfold get_place_details
  simp [h]

theorem enrich_locations_days_get (env : PlacesEnv) (itin : Itinerary) (i : Nat) :
    (enrich_locations env itin).days[i]? =
      (itin.days[i]?).map (fun d =>
        { d with locations := d.locations.map (fun loc =>
            enrich_single_location env loc (itin.destination.getD "")) }) := by
  cases hk : strTruthy env.apiKey
  · have h1 : enrich_locations env itin = itin := by simp [enrich_locations, hk]
    have hloc : ∀ loc : Location,
        enrich_single_location env loc (itin.destination.getD "") = loc :=
      fun loc => enrich_single_of_key_falsy env loc _ hk
    rw [h1]
    cases h : itin.days[i]?
    · simp
    · simp [hloc]
  · simp only [enrich_locations, hk]
    rw [if_neg (by simp)]
    simp [List.getElem?_map]

/-! ## Claim C6: price-tier conversion -/

/-- Claim C6: the price-tier conversion is a total deterministic function from
an optional integer to an optional label: `0 ↦ "Free"`, `1 ↦ "$"`, `2 ↦ "$$"`,
`3 ↦ "$$$"`, `4 ↦ "$$$$"`, and every other input (absent or out of the 0-4
range, e.g. 7) maps to `none`. -/
theorem claim_C6_price_tier :
    convert_price_level none = none ∧
    convert_price_level (some 0) = some "Free" ∧
    convert_price_level (some 1) = some "$" ∧
    convert_price_level (some 2) = some "$$" ∧
    convert_price_level (some 3) = some "$$$" ∧
    convert_price_level (some 4) = some "$$$$" ∧
    ∀ n : Int, ¬(0 ≤ n ∧ n ≤ 4) → convert_price_level (some n) = none := by
  refine ⟨rfl, rfl, rfl, rfl, rfl, rfl, ?_⟩
  intro n h
  simp only [convert_price_level, price_mapping, priceLookup]
  split_ifs with h0 h1 h2 h3 h4 <;> first | rfl | omega

/-- Witness for C6 at the out-of-range input 7 from the claim. -/
theorem claim_C6_witness :
    ¬((0 : Int) ≤ 7 ∧ (7 : Int) ≤ 4) ∧ convert_price_level (some 7) = none :=
  ⟨by decide, claim_C6_price_tier.2.2.2.2.2.2 7 (by decide)⟩

/-! ## Claim C8: platform classification order -/

/-- Claim C8: the resolver classifies the platform by substring match on the
lowercased URL in a fixed order — TikTok domains first, then Instagram, then
YouTube — so a URL containing substrings of several platforms is classified as
the first in that order, and a URL matching none returns `none`. -/
theorem claim_C8_platform_order :
    ∀ url : String,
      (classify_platform url = some Platform.tiktok ↔
        (strContains (pyLower url) "tiktok.com" ||
          strContains (pyLower url) "vm.tiktok.com") = true) ∧
      (classify_platform url = some Platform.instagram ↔
        ((strContains (pyLower url) "tiktok.com" ||
            strContains (pyLower url) "vm.tiktok.com") = false ∧
          strContains (pyLower url) "instagram.com" = true)) ∧
      (classify_platform url = some Platform.youtube ↔
        ((strContains (pyLower url) "tiktok.com" ||
            strContains (pyLower url) "vm.tiktok.com") = false ∧
          strContains (pyLower url) "instagram.com" = false ∧
          (strContains (pyLower url) "youtube.com" ||
            strContains (pyLower url) "youtu.be") = true)) ∧
      (classify_platform url = none ↔
        ((strContains (pyLower url) "tiktok.com" ||
            strContains (pyLower url) "vm.tiktok.com") = false ∧
          strContains (pyLower url) "instagram.com" = false ∧
          (strContains (pyLower url) "youtube.com" ||
            strContains (pyLower url) "youtu.be") = false)) := by
  intro url
  simp only [classify_platform]
  generalize strContains (pyLower url) "tiktok.com" = t1
  generalize strContains (pyLower url) "vm.tiktok.com" = t2
  generalize strContains (pyLower url) "instagram.com" = t3
  generalize strContains (pyLower url) "youtube.com" = t4
  generalize strContains (pyLower url) "youtu.be" = t5
  revert t1 t2 t3 t4 t5
  decide

/-! ## Claim C1: the 400 gate of POST /api/extract -/

/-- A URL the resolver recognizes (its lowercase contains `youtu.be`) but the
endpoint's own domain list does not. -/
def c1url : String := "https://youtu.be/dQw4"

/-- A concrete request environment used in counterexamples. -/
def env0 : AppEnv :=
  { openai_key := some "k"
    places_key := none
    resolve := fun _ => none
    chatCall := fun _ _ => Except.error "network down"
    parse := fun _ => none
    enrichJson := id }

/-- Counterexample to claim C1 as stated: `https://youtu.be/dQw4` contains a
recognized platform domain substring (the resolver classifies it as the
long-video platform via `youtu.be`), yet the endpoint rejects it with 400,
because the endpoint's own list (`main.py` line 110) omits `youtu.be`. -/
theorem claim_C1_counterexample :
    classify_platform c1url = some Platform.youtube ∧
    validDomain c1url = false ∧
    extract_itinerary env0 { url := c1url, trip_duration := none, preferences := none } =
      Except.error ApiError.badRequest400 :=
  ⟨rfl, rfl, rfl⟩

/-- Claim C1 (amended): for every environment (so without any network call
being consulted) the endpoint returns 400 exactly when the lowercased URL
contains none of `tiktok.com`, `instagram.com`, `youtube.com`,
`vm.tiktok.com`; URLs recognized only through the resolver's extra `youtu.be`
substring are still rejected. -/
theorem claim_C1_domain_gate :
    ∀ (env : AppEnv) (req : TripRequest),
      (extract_itinerary env req = Except.error ApiError.badRequest400 ↔
        validDomain req.url = false) := by
  intro env req
  cases hv : validDomain req.url
  · simp [extract_itinerary, hv]
  · simp only [extract_itinerary, hv]
    rw [if_neg (by simp)]
    constructor
    · intro h
      exfalso
      revert h
      split
      · intro h; cases h
      · split
        · intro h; cases h
        · split
          · intro h; cases h
          · split <;> intro h <;> cases h
    · intro h; cases h

/-! ## Claim C9: enrichment preserves day and location ordering -/

/-- Claim C9: enrichment preserves the count and ordering of `days` and of each
day's `locations`: the i-th output day is the input day with its location list
rebuilt by mapping the per-location enrichment over it in order, so the j-th
output location is the enrichment of the j-th input location. -/
theorem claim_C9_order_preserved :
    ∀ (env : PlacesEnv) (itin : Itinerary),
      (enrich_locations env itin).days.length = itin.days.length ∧
      (∀ i : Nat,
        (enrich_locations env itin).days[i]? =
          (itin.days[i]?).map (fun d =>
            { d with locations := d.locations.map (fun loc =>
                enrich_single_location env loc (itin.destination.getD "")) })) ∧
      (∀ i j : Nat,
        ((enrich_locations env itin).days[i]?).map (fun d => d.locations[j]?) =
          (itin.days[i]?).map (fun d =>
            (d.locations[j]?).map (fun loc =>
              enrich_single_location env loc (itin.destination.getD "")))) := by
  intro env itin
  refine ⟨?_, fun i => enrich_locations_days_get env itin i, ?_⟩
  · unfold enrich_locations
    split
    · rfl
    · simp
  · intro i j
    rw [enrich_locations_days_get env itin i]
    cases itin.days[i]?
    · rfl
    · simp [List.getElem?_map]

/-! ## Claim C3: enrichment never degrades information -/

/-- Claim C3 (amended): fields are overwritten only when a confident external
match exists — a failed search or a failed details fetch leaves the location
unchanged — and `address` is never nulled (it falls back to the prior value
when the match lacks one); but when a match with details exists, `rating` and
`price_level` are unconditionally overwritten with the external values, so a
prior non-null `rating`/`price_level` is nulled when the external record lacks
those fields. -/
theorem claim_C3_enrichment_fields :
    ∀ (env : PlacesEnv) (loc : Location) (dest : String),
      (search_place env (searchQuery loc dest) loc.type = none →
        enrich_single_location env loc dest = loc) ∧
      (∀ p : PlaceResult, search_place env (searchQuery loc dest) loc.type = some p →
        get_place_details env p.place_id = none →
        enrich_single_location env loc dest = loc) ∧
      (∀ (p : PlaceResult) (d : Details), strTruthy env.apiKey = true →
        search_place env (searchQuery loc dest) loc.type = some p →
        get_place_details env p.place_id = some d →
        (enrich_single_location env loc dest).address =
          (match d.formatted_address with
           | some a => some a
           | none => loc.address) ∧
        (loc.address ≠ none → (enrich_single_location env loc dest).address ≠ none) ∧
        (enrich_single_location env loc dest).rating = d.rating ∧
        (enrich_single_location env loc dest).price_level =
          convert_price_level d.price_level) := by
  intro env loc dest
  refine ⟨fun h => enrich_single_of_search_none env loc dest h,
    fun p hs hd => enrich_single_of_details_none env loc dest p hs hd,
    fun p d hk hs hd => ?_⟩
  rw [enrich_single_of_details_some env loc dest p d hs hd hk]
  refine ⟨mergeDetails_address loc d env.apiKey, ?_,
    mergeDetails_rating loc d env.apiKey, mergeDetails_price loc d env.apiKey⟩
  intro hne
  rw [mergeDetails_address loc d env.apiKey]
  cases d.formatted_address <;> simp [hne]

/-- An environment whose search call always raises (models a network
failure or timeout during the text search). -/
def envSearchErr : PlacesEnv :=
  { apiKey := some "k"
    textSearch := fun _ _ => Except.error "timeout"
    detailsFetch := fun _ => Except.error "timeout" }

/-- An environment whose search succeeds but whose details call raises. -/
def envDetailsErr : PlacesEnv :=
  { apiKey := some "k"
    textSearch := fun _ _ =>
      Except.ok { status := some "OK", results := [{ place_id := some "p1" }] }
    detailsFetch := fun _ => Except.error "timeout" }

/-- A details record with an address but no rating and no price level. -/
def dNoRating : Details :=
  { formatted_address := some "1 Rue de Rivoli"
    geometry := none
    rating := none
    price_level := none
    photos := []
    opening_hours := none
    url := none }

/-- An environment whose search and details calls both succeed, returning
`dNoRating`. -/
def envOk : PlacesEnv :=
  { apiKey := some "k"
    textSearch := fun _ _ =>
      Except.ok { status := some "OK", results := [{ place_id := some "p1" }] }
    detailsFetch := fun _ =>
      Except.ok { status := some "OK", result := some dNoRating } }

/-- A location that already carries an address, a rating and a price level. -/
def locPrior : Location :=
  { name := some "Cafe Lumiere"
    type := some "restaurant"
    description := none
    address := some "Old Address 5"
    coordinates := none
    rating := some 4
    price_level := some "$"
    image_url := none
    booking_url := none
    tips := none
    opening_hours := none
    google_maps_url := none }

/-- Counterexample to claim C3 as stated: with a successful match whose details
record carries no `rating`, enrichment nulls the location's prior non-null
rating (and likewise its prior price level). -/
theorem claim_C3_counterexample :
    locPrior.rating = some 4 ∧
    locPrior.price_level = some "$" ∧
    (enrich_single_location envOk locPrior "Paris").rating = none ∧
    (enrich_single_location envOk locPrior "Paris").price_level = none :=
  ⟨rfl, rfl, rfl, rfl⟩

/-- Witness for the amended C3 theorem: a failed search and a failed details
fetch each leave `locPrior` unchanged, and a successful match rewrites
`address`/`rating`/`price_level` with the external values. -/
theorem claim_C3_witness :
    (search_place envSearchErr (searchQuery locPrior "Paris") locPrior.type = none ∧
      enrich_single_location envSearchErr locPrior "Paris" = locPrior) ∧
    (enrich_single_location envDetailsErr locPrior "Paris" = locPrior) ∧
    ((enrich_single_location envOk locPrior "Paris").address = some "1 Rue de Rivoli" ∧
      (enrich_single_location envOk locPrior "Paris").rating = none) := by
  refine ⟨⟨rfl, (claim_C3_enrichment_fields envSearchErr locPrior "Paris").1 rfl⟩,
    (claim_C3_enrichment_fields envDetailsErr locPrior "Paris").2.1
      { place_id := some "p1" } rfl rfl, ?_, ?_⟩
  · exact ((claim_C3_enrichment_fields envOk locPrior "Paris").2.2
      { place_id := some "p1" } dNoRating rfl rfl rfl).1
  · exact ((claim_C3_enrichment_fields envOk locPrior "Paris").2.2
      { place_id := some "p1" } dNoRating rfl rfl rfl).2.2.1

/-! ## Claim C7: per-location failure isolation -/

/-- Claim C7: a network or parsing error raised while searching or while
fetching details for one location is caught for that location alone — the
location keeps its prior values — and every other location of the itinerary is
still enriched; a per-location failure never aborts the overall enrichment. -/
theorem claim_C7_failure_isolation :
    ∀ (env : PlacesEnv) (itin : Itinerary) (i j : Nat) (d : DayPlan) (loc : Location),
      itin.days[i]? = some d → d.locations[j]? = some loc →
      ((∃ e, env.textSearch (searchQuery loc (itin.destination.getD ""))
          (mappedType loc.type) = Except.error e) ∨
        (∃ (p : PlaceResult) (pid e : String),
          search_place env (searchQuery loc (itin.destination.getD "")) loc.type = some p ∧
          p.place_id = some pid ∧ env.detailsFetch pid = Except.error e)) →
      (∃ d', (enrich_locations env itin).days[i]? = some d' ∧
        d'.locations[j]? = some loc) ∧
      (∀ (i' j' : Nat) (d1 : DayPlan) (loc1 : Location),
        itin.days[i']? = some d1 → d1.locations[j']? = some loc1 →
        ∃ d1', (enrich_locations env itin).days[i']? = some d1' ∧
          d1'.locations[j']? =
            some (enrich_single_location env loc1 (itin.destination.getD ""))) := by
  intro env itin i j d loc hd hloc hfail
  have hunchanged : enrich_single_location env loc (itin.destination.getD "") = loc := by
    rcases hfail with ⟨e, he⟩ | ⟨p, pid, e, hs, hpid, he⟩
    · exact enrich_single_of_search_none env loc _
        (search_place_of_error env _ loc.type e he)
    · refine enrich_single_of_details_none env loc _ p hs ?_
      rw [hpid]
      exact get_place_details_of_error env pid e he
  have hall : ∀ (i' j' : Nat) (d1 : DayPlan) (loc1 : Location),
      itin.days[i']? = some d1 → d1.locations[j']? = some loc1 →
      ∃ d1', (enrich_locations env itin).days[i']? = some d1' ∧
        d1'.locations[j']? =
          some (enrich_single_location env loc1 (itin.destination.getD "")) := by
    intro i' j' d1 loc1 hd1 hloc1
    refine ⟨_, by rw [enrich_locations_days_get env itin i', hd1]; rfl, ?_⟩
    simp [List.getElem?_map, hloc1]
  refine ⟨?_, hall⟩
  obtain ⟨d1', hget, hj⟩ := hall i j d loc hd hloc
  exact ⟨d1', hget, by rw [hj, hunchanged]⟩

/-- A second location, with no prior data. -/
def locBare : Location :=
  { name := some "Louvre"
    type := some "attraction"
    description := none
    address := none
    coordinates := none
    rating := none
    price_level := none
    image_url := none
    booking_url := none
    tips := none
    opening_hours := none
    google_maps_url := none }

/-- A two-location itinerary used by the C7 witness. -/
def itinTwo : Itinerary :=
  { destination := some "Paris"
    duration_days := some 1
    summary := some "s"
    vibe := some "v"
    source_url := some "https://tiktok.com/@x/video/1"
    source_creator := some "@x"
    days := [{ day := some 1, title := some "Day 1",
               locations := [locPrior, locBare], notes := none }]
    packing_tips := [] }

/-- Witness for C7: with an environment whose search always raises, both
locations keep their prior values and enrichment still visits both. -/
theorem claim_C7_witness :
    (∃ d', (enrich_locations envSearchErr itinTwo).days[0]? = some d' ∧
      d'.locations[0]? = some locPrior) ∧
    (∀ (i' j' : Nat) (d1 : DayPlan) (loc1 : Location),
      itinTwo.days[i']? = some d1 → d1.locations[j']? = some loc1 →
      ∃ d1', (enrich_locations envSearchErr itinTwo).days[i']? = some d1' ∧
        d1'.locations[j']? =
          some (enrich_single_location envSearchErr loc1 (itinTwo.destination.getD ""))) :=
  claim_C7_failure_isolation envSearchErr itinTwo 0 0
    { day := some 1, title := some "Day 1", locations := [locPrior, locBare], notes := none }
    locPrior rfl rfl (Or.inl ⟨"timeout", rfl⟩)

/-! ## Post-processing lemmas for the synthesizer -/

theorem getKey_stampSource_url (o : Jobj) (u c : String) :
    getKey (stampSource o u c) "source_url" = some (JVal.str u) := by
  unfold stampSource
  rw [getKey_setKey_ne _ _ _ _ (by decide), getKey_setKey_same]

theorem getKey_stampSource_creator (o : Jobj) (u c : String) :
    getKey (stampSource o u c) "source_creator" = some (JVal.str c) := by
  unfold stampSource
  rw [getKey_setKey_same]

theorem getKey_stampSource_other (o : Jobj) (u c : String) (k : String)
    (h1 : k ≠ "source_url") (h2 : k ≠ "source_creator") :
    getKey (stampSource o u c) k = getKey o k := by
  unfold stampSource
  rw [getKey_setKey_ne _ _ _ _ h2, getKey_setKey_ne _ _ _ _ h1]

theorem hasKey_stampSource_other (o : Jobj) (u c : String) (k : String)
    (h1 : k ≠ "source_url") (h2 : k ≠ "source_creator") :
    hasKey (stampSource o u c) k = hasKey o k := by
  simp [hasKey, getKey_stampSource_other o u c k h1 h2]

theorem postProcess_ok (o : Jobj) (u c : String) (r : Jobj)
    (h : postProcess o u c = some r) :
    getKey r "source_url" = some (JVal.str u) ∧
    getKey r "source_creator" = some (JVal.str c) ∧
    (hasKey o "days" = false → getKey r "days" = some (JVal.arr [])) ∧
    (hasKey o "duration_days" = false →
      ∀ dl : List JVal, getKey r "days" = some (JVal.arr dl) →
        getKey r "duration_days" = some (JVal.num dl.length)) ∧
    (hasKey o "packing_tips" = false → getKey r "packing_tips" = some (JVal.arr [])) ∧
    (hasKey o "local_phrases" = false → getKey r "local_phrases" = some (JVal.arr [])) := by
  simp only [postProcess] at h
  generalize hR2 : ensureKey (stampSource o u c) "days" (JVal.arr []) = r2 at h
  have hsu : getKey r2 "source_url" = some (JVal.str u) := by
    rw [← hR2, getKey_ensureKey_ne _ _ _ _ (by decide), getKey_stampSource_url]
  have hsc : getKey r2 "source_creator" = some (JVal.str c) := by
    rw [← hR2, getKey_ensureKey_ne _ _ _ _ (by decide), getKey_stampSource_creator]
  have hdaysv : ∃ v, getKey r2 "days" = some v := by
    rw [← hR2]
    by_cases hd : hasKey (stampSource o u c) "days"
    · rw [ensureKey_present _ _ _ hd]
      rcases hgv : getKey (stampSource o u c) "days" with _ | v
      · rw [hasKey, hgv] at hd
        cases hd
      · exact ⟨v, rfl⟩
    · have hd' : hasKey (stampSource o u c) "days" = false := by simpa using hd
      exact ⟨_, getKey_ensureKey_absent _ _ _ hd'⟩
  have hdays0 : hasKey o "days" = false → getKey r2 "days" = some (JVal.arr []) := by
    intro h0
    rw [← hR2]
    apply getKey_ensureKey_absent
    rw [hasKey_stampSource_other o u c "days" (by decide) (by decide)]
    exact h0
  have hdur : hasKey r2 "duration_days" = hasKey o "duration_days" := by
    rw [← hR2, hasKey_ensureKey_ne _ _ _ _ (by decide),
      hasKey_stampSource_other o u c "duration_days" (by decide) (by decide)]
  have hpt : hasKey r2 "packing_tips" = hasKey o "packing_tips" := by
    rw [← hR2, hasKey_ensureKey_ne _ _ _ _ (by decide),
      hasKey_stampSource_other o u c "packing_tips" (by decide) (by decide)]
  have hlp : hasKey r2 "local_phrases" = hasKey o "local_phrases" := by
    rw [← hR2, hasKey_ensureKey_ne _ _ _ _ (by decide),
      hasKey_stampSource_other o u c "local_phrases" (by decide) (by decide)]
  by_cases hdo : hasKey o "duration_days" = true
  · rw [if_pos (hdur.trans hdo)] at h
    have hfr : ensureKey (ensureKey r2 "packing_tips" (JVal.arr []))
        "local_phrases" (JVal.arr []) = r := by
      injection h
    refine ⟨?_, ?_, ?_, ?_, ?_, ?_⟩
    · rw [← hfr, getKey_ensureKey_ne _ _ _ _ (by decide),
        getKey_ensureKey_ne _ _ _ _ (by decide)]
      exact hsu
    · rw [← hfr, getKey_ensureKey_ne _ _ _ _ (by decide),
        getKey_ensureKey_ne _ _ _ _ (by decide)]
      exact hsc
    · intro h0
      rw [← hfr, getKey_ensureKey_ne _ _ _ _ (by decide),
        getKey_ensureKey_ne _ _ _ _ (by decide)]
      exact hdays0 h0
    · intro h0
      rw [h0] at hdo
      cases hdo
    · intro h0
      rw [← hfr, getKey_ensureKey_ne _ _ _ _ (by decide)]
      apply getKey_ensureKey_absent
      rw [hpt]
      exact h0
    · intro h0
      rw [← hfr]
      apply getKey_ensureKey_absent
      rw [hasKey_ensureKey_ne _ _ _ _ (by decide), hlp]
      exact h0
  · have hdo' : hasKey o "duration_days" = false := by simpa using hdo
    rw [hdur] at h
    rw [if_neg (by simp [hdo'])] at h
    obtain ⟨v, hv⟩ := hdaysv
    simp only [hv] at h
    cases hn : pyLen v with
    | none =>
      rw [hn] at h
      simp at h
    | some n =>
      rw [hn] at h
      have hfr : ensureKey (ensureKey (setKey r2 "duration_days" (JVal.num n))
          "packing_tips" (JVal.arr [])) "local_phrases" (JVal.arr []) = r := by
        injection h
      refine ⟨?_, ?_, ?_, ?_, ?_, ?_⟩
      · rw [← hfr, getKey_ensureKey_ne _ _ _ _ (by decide),
          getKey_ensureKey_ne _ _ _ _ (by decide), getKey_setKey_ne _ _ _ _ (by decide)]
        exact hsu
      · rw [← hfr, getKey_ensureKey_ne _ _ _ _ (by decide),
          getKey_ensureKey_ne _ _ _ _ (by decide), getKey_setKey_ne _ _ _ _ (by decide)]
        exact hsc
      · intro h0
        rw [← hfr, getKey_ensureKey_ne _ _ _ _ (by decide),
          getKey_ensureKey_ne _ _ _ _ (by decide), getKey_setKey_ne _ _ _ _ (by decide)]
        exact hdays0 h0
      · intro _ dl hdl
        have hrd : getKey r "days" = getKey r2 "days" := by
          rw [← hfr, getKey_ensureKey_ne _ _ _ _ (by decide),
            getKey_ensureKey_ne _ _ _ _ (by decide), getKey_setKey_ne _ _ _ _ (by decide)]
        rw [hrd, hv] at hdl
        injection hdl with hveq
        subst hveq
        simp only [pyLen] at hn
        injection hn with hneq
        rw [← hfr, getKey_ensureKey_ne _ _ _ _ (by decide),
          getKey_ensureKey_ne _ _ _ _ (by decide), getKey_setKey_same, ← hneq]
      · intro h0
        rw [← hfr, getKey_ensureKey_ne _ _ _ _ (by decide)]
        apply getKey_ensureKey_absent
        rw [hasKey_setKey_ne _ _ _ _ (by decide), hpt]
        exact h0
      · intro h0
        rw [← hfr]
        apply getKey_ensureKey_absent
        rw [hasKey_ensureKey_ne _ _ _ _ (by decide),
          hasKey_setKey_ne _ _ _ _ (by decide), hlp]
        exact h0

/-! ## Claim C2: synthesizer post-processing -/

/-- Claim C2 (amended): for every generator output that synthesize coerces to
an itinerary, `source_url` and `source_creator` are stamped on; the defaults
(`days` to the empty sequence, `duration_days` to the length of `days`,
`packing_tips`/`local_phrases` to empty sequences) are applied only on the
direct parse path — an output recovered from an embedded JSON substring is
stamped with the source fields but receives none of the defaults. -/
theorem claim_C2_postprocessing :
    ∀ (parse : String → Option Jobj) (text u c : String),
      (∀ (o r : Jobj), parse text = some o →
        generate_itinerary parse (Except.ok text) u c = Except.ok r →
        getKey r "source_url" = some (JVal.str u) ∧
        getKey r "source_creator" = some (JVal.str c) ∧
        (hasKey o "days" = false → getKey r "days" = some (JVal.arr [])) ∧
        (hasKey o "duration_days" = false →
          ∀ dl : List JVal, getKey r "days" = some (JVal.arr dl) →
            getKey r "duration_days" = some (JVal.num dl.length)) ∧
        (hasKey o "packing_tips" = false → getKey r "packing_tips" = some (JVal.arr [])) ∧
        (hasKey o "local_phrases" = false →
          getKey r "local_phrases" = some (JVal.arr []))) ∧
      (∀ (sub : String) (o : Jobj), parse text = none → extractBraces text = some sub →
        parse sub = some o →
        generate_itinerary parse (Except.ok text) u c = Except.ok (stampSource o u c) ∧
        getKey (stampSource o u c) "source_url" = some (JVal.str u) ∧
        getKey (stampSource o u c) "source_creator" = some (JVal.str c) ∧
        getKey (stampSource o u c) "days" = getKey o "days" ∧
        getKey (stampSource o u c) "duration_days" = getKey o "duration_days" ∧
        getKey (stampSource o u c) "packing_tips" = getKey o "packing_tips" ∧
        getKey (stampSource o u c) "local_phrases" = getKey o "local_phrases") := by
  intro parse text u c
  constructor
  · intro o r ho hg
    unfold generate_itinerary at hg
    simp only [ho] at hg
    cases hp : postProcess o u c with
    | none =>
      rw [hp] at hg
      cases hg
    | some r' =>
      rw [hp] at hg
      injection hg with hg'
      subst hg'
      exact postProcess_ok o u c r' hp
  · intro sub o h1 h2 h3
    refine ⟨?_, getKey_stampSource_url o u c, getKey_stampSource_creator o u c,
      getKey_stampSource_other o u c _ (by decide) (by decide),
      getKey_stampSource_other o u c _ (by decide) (by decide),
      getKey_stampSource_other o u c _ (by decide) (by decide),
      getKey_stampSource_other o u c _ (by decide) (by decide)⟩
    unfold generate_itinerary
    simp only [h1, h2, h3]

/-- A generator output that is valid JSON on its own: `\x7b"d": 1\x7d`. -/
def textA : String := String.mk ['{', '"', 'd', '"', ':', ' ', '1', '}']

/-- The object parsed from `textA`. -/
def jObjA : Jobj := [("d", JVal.num 1)]

/-- An embedded JSON substring `\x7b"e": 2\x7d`. -/
def subB : String := String.mk ['{', '"', 'e', '"', ':', ' ', '2', '}']

/-- The object parsed from `subB`. -/
def jObjB : Jobj := [("e", JVal.num 2)]

/-- A generator output with leading junk before the embedded JSON. -/
def textB : String := String.mk (['x', ' '] ++ ['{', '"', 'e', '"', ':', ' ', '2', '}'])

/-- A generator output with no brace anywhere. -/
def textNoBrace : String := "no json here"

/-- A `json.loads` oracle consistent with real JSON on the inputs above:
`textA` and `subB` are valid JSON objects, everything else fails to parse. -/
def parseW : String → Option Jobj :=
  fun s => if s = textA then some jObjA else if s = subB then some jObjB else none

/-- The post-processed result of the direct path on `textA`. -/
def rPost : Jobj :=
  [("d", JVal.num 1), ("source_url", JVal.str "https://u"),
   ("source_creator", JVal.str "@c"), ("days", JVal.arr []),
   ("duration_days", JVal.num 0), ("packing_tips", JVal.arr []),
   ("local_phrases", JVal.arr [])]

/-- A generator output whose strict parse fails (leading prose) but whose
embedded brace substring is exactly `textA`. -/
def textC2bad : String :=
  String.mk (['S', 'u', 'r', 'e', ':', ' '] ++ ['{', '"', 'd', '"', ':', ' ', '1', '}'])

/-- A `json.loads` oracle consistent with real JSON for `textC2bad`: the whole
text fails to parse, its brace substring parses to an object without `days`. -/
def parseC2 : String → Option Jobj :=
  fun s => if s = textA then some jObjA else none

/-- Counterexample to claim C2 as stated: an output recovered from an embedded
JSON substring is only stamped with `source_url`/`source_creator`; the `days`
default (and the other defaults) are skipped, so the result has no `days`
field at all. -/
theorem claim_C2_counterexample :
    generate_itinerary parseC2 (Except.ok textC2bad) "https://u" "@c" =
      Except.ok [("d", JVal.num 1), ("source_url", JVal.str "https://u"),
        ("source_creator", JVal.str "@c")] ∧
    getKey [("d", JVal.num 1), ("source_url", JVal.str "https://u"),
        ("source_creator", JVal.str "@c")] "days" = none :=
  ⟨rfl, rfl⟩

/-- Witness for the amended C2 theorem: the direct path on `textA` applies all
defaults, the recovery path on `textB` only stamps. -/
theorem claim_C2_witness :
    getKey rPost "source_url" = some (JVal.str "https://u") ∧
    getKey rPost "days" = some (JVal.arr []) ∧
    getKey rPost "duration_days" = some (JVal.num 0) ∧
    getKey rPost "packing_tips" = some (JVal.arr []) ∧
    getKey rPost "local_phrases" = some (JVal.arr []) ∧
    generate_itinerary parseW (Except.ok textB) "https://u" "@c" =
      Except.ok (stampSource jObjB "https://u" "@c") := by
  have h1 := (claim_C2_postprocessing parseW textA "https://u" "@c").1 jObjA rPost rfl rfl
  have h2 := (claim_C2_postprocessing parseW textB "https://u" "@c").2 subB jObjB rfl rfl rfl
  exact ⟨h1.1, h1.2.2.1 rfl, h1.2.2.2.1 rfl [] (h1.2.2.1 rfl), h1.2.2.2.2.1 rfl,
    h1.2.2.2.2.2 rfl, h2.1⟩

/-! ## Claim C4: strict-then-lenient JSON parsing -/

/-- Claim C4: if the generator response parses as JSON, synthesize uses it
(post-processing included); if parsing fails but the text has a brace-delimited
substring, synthesize re-parses that substring and returns the embedded object
(stamped with the source fields); if recovery also fails — no brace substring,
or the substring does not parse either — synthesize fails with a
GenerationError (surfaced as a 500). -/
theorem claim_C4_parse_recovery :
    ∀ (parse : String → Option Jobj) (text u c : String),
      (∀ (o r : Jobj), parse text = some o → postProcess o u c = some r →
        generate_itinerary parse (Except.ok text) u c = Except.ok r) ∧
      (∀ (sub : String) (o : Jobj), parse text = none → extractBraces text = some sub →
        parse sub = some o →
        generate_itinerary parse (Except.ok text) u c = Except.ok (stampSource o u c)) ∧
      (parse text = none →
        (extractBraces text = none ∨
          ∃ sub, extractBraces text = some sub ∧ parse sub = none) →
        ∃ e, generate_itinerary parse (Except.ok text) u c = Except.error e) := by
  intro parse text u c
  refine ⟨?_, ?_, ?_⟩
  · intro o r h1 h2
    unfold generate_itinerary
    simp only [h1, h2]
  · intro sub o h1 h2 h3
    unfold generate_itinerary
    simp only [h1, h2, h3]
  · intro h1 hrec
    unfold generate_itinerary
    rcases hrec with h2 | ⟨sub, h2, h3⟩
    · exact ⟨GenError.parseFailed, by simp only [h1, h2]⟩
    · exact ⟨GenError.jsonDecodeError, by simp only [h1, h2, h3]⟩

/-- Witness for C4: the three paths at concrete inputs — direct parse, brace
recovery, and failure with no braces. -/
theorem claim_C4_witness :
    generate_itinerary parseW (Except.ok textA) "https://u" "@c" = Except.ok rPost ∧
    generate_itinerary parseW (Except.ok textB) "https://u" "@c" =
      Except.ok (stampSource jObjB "https://u" "@c") ∧
    ∃ e, generate_itinerary parseW (Except.ok textNoBrace) "https://u" "@c" =
      Except.error e :=
  ⟨(claim_C4_parse_recovery parseW textA "https://u" "@c").1 jObjA rPost rfl rfl,
    (claim_C4_parse_recovery parseW textB "https://u" "@c").2.1 subB jObjB rfl rfl rfl,
    (claim_C4_parse_recovery parseW textNoBrace "https://u" "@c").2.2 rfl (Or.inl rfl)⟩

/-! ## Membership lemmas for the subtitle cleaner -/

theorem mem_joinSp (ps : List (List Char)) (c : Char) (h : c ∈ joinSp ps) :
    c = ' ' ∨ ∃ p ∈ ps, c ∈ p := by
  induction ps with
  | nil => cases h
  | cons p ps ih =>
    cases ps with
    | nil => exact Or.inr ⟨p, List.mem_cons_self p [], h⟩
    | cons q ps' =>
      rw [joinSp] at h
      rcases List.mem_append.mp h with hp | hrest
      · exact Or.inr ⟨p, List.mem_cons_self _ _, hp⟩
      · rcases List.mem_cons.mp hrest with hsp | hjoin
        · exact Or.inl hsp
        · rcases ih hjoin with hsp | ⟨p', hp', hc⟩
          · exact Or.inl hsp
          · exact Or.inr ⟨p', List.mem_cons_of_mem _ hp', hc⟩

theorem splitLines_no_newline (l : List Char) :
    ∀ p ∈ splitLines l, '\n' ∉ p := by
  induction l with
  | nil =>
    intro p hp
    simp [splitLines] at hp
    simp [hp]
  | cons c rest ih =>
    intro p hp
    by_cases hc : c = '\n'
    · rw [splitLines, if_pos hc] at hp
      rcases List.mem_cons.mp hp with h0 | h0
      · simp [h0]
      · exact ih p h0
    · rw [splitLines, if_neg hc] at hp
      cases hsl : splitLines rest with
      | nil =>
        rw [hsl] at hp
        simp at hp
        intro hmem
        rw [hp] at hmem
        simp at hmem
        exact hc hmem.symm
      | cons r rs =>
        rw [hsl] at hp
        rcases List.mem_cons.mp hp with h0 | h0
        · subst h0
          intro hmem
          rcases List.mem_cons.mp hmem with h1 | h1
          · exact hc h1.symm
          · exact ih r (hsl ▸ List.mem_cons_self r rs) h1
        · exact ih p (hsl ▸ List.mem_cons_of_mem r h0)

theorem mem_splitLines (l : List Char) :
    ∀ p ∈ splitLines l, ∀ c ∈ p, c ∈ l := by
  induction l with
  | nil =>
    intro p hp
    simp [splitLines] at hp
    simp [hp]
  | cons a rest ih =>
    intro p hp c hc
    by_cases ha : a = '\n'
    · rw [splitLines, if_pos ha] at hp
      rcases List.mem_cons.mp hp with h0 | h0
      · rw [h0] at hc
        cases hc
      · exact List.mem_cons_of_mem a (ih p h0 c hc)
    · rw [splitLines, if_neg ha] at hp
      cases hsl : splitLines rest with
      | nil =>
        rw [hsl] at hp
        simp at hp
        rw [hp] at hc
        simp at hc
        simp [hc]
      | cons r rs =>
        rw [hsl] at hp
        rcases List.mem_cons.mp hp with h0 | h0
        · subst h0
          rcases List.mem_cons.mp hc with h1 | h1
          · simp [h1]
          · exact List.mem_cons_of_mem a (ih r (hsl ▸ List.mem_cons_self r rs) c h1)
        · exact List.mem_cons_of_mem a (ih p (hsl ▸ List.mem_cons_of_mem r h0) c hc)

theorem mem_pyStrip (l : List Char) (c : Char) (h : c ∈ pyStrip l) : c ∈ l := by
  unfold pyStrip at h
  have h1 : c ∈ l.dropWhile isSpc :=
    ((List.rdropWhile_prefix isSpc (l.dropWhile isSpc)).sublist.subset) h
  exact (List.dropWhile_sublist isSpc).subset h1

theorem mem_removeTagsF : ∀ (n : Nat) (l : List Char) (c : Char),
    c ∈ removeTagsF n l → c ∈ l := by
  intro n
  induction n with
  | zero => intro l c h; exact h
  | succ n ih =>
    intro l c h
    cases l with
    | nil => exact h
    | cons a rest =>
      rw [removeTagsF] at h
      split at h
      · have h1 := ih _ _ h
        have h2 : c ∈ rest.dropWhile (fun x => x != '>') :=
          (List.drop_sublist 1 _).subset h1
        exact List.mem_cons_of_mem a ((List.dropWhile_sublist _).subset h2)
      · rcases List.mem_cons.mp h with h0 | h0
        · simp [h0]
        · exact List.mem_cons_of_mem a (ih _ _ h0)

theorem mem_removeTags (l : List Char) (c : Char) (h : c ∈ removeTags l) : c ∈ l :=
  mem_removeTagsF l.length l c h

theorem mem_replaceNbspF : ∀ (n : Nat) (l : List Char) (c : Char),
    c ∈ replaceNbspF n l → c = ' ' ∨ c ∈ l := by
  intro n
  induction n with
  | zero => intro l c h; exact Or.inr h
  | succ n ih =>
    intro l c h
    cases l with
    | nil => cases h
    | cons a rest =>
      rw [replaceNbspF] at h
      split at h
      · rcases List.mem_cons.mp h with h0 | h0
        · exact Or.inl h0
        · rcases ih _ _ h0 with h1 | h1
          · exact Or.inl h1
          · exact Or.inr ((List.drop_sublist 6 (a :: rest)).subset h1)
      · rcases List.mem_cons.mp h with h0 | h0
        · simp [h0]
        · rcases ih _ _ h0 with h1 | h1
          · exact Or.inl h1
          · exact Or.inr (List.mem_cons_of_mem a h1)

theorem mem_replaceNbsp (l : List Char) (c : Char) (h : c ∈ replaceNbsp l) :
    c = ' ' ∨ c ∈ l :=
  mem_replaceNbspF l.length l c h

theorem processLine_mem (l : List Char) (t : List Char) (h : processLine l = some t) :
    ∀ c ∈ t, c = ' ' ∨ c ∈ l := by
  intro c hc
  simp only [processLine] at h
  split_ifs at h
  injection h with h
  rw [← h] at hc
  rcases mem_replaceNbsp _ _ hc with h1 | h1
  · exact Or.inl h1
  · exact Or.inr (mem_pyStrip l c (mem_removeTags _ _ h1))

theorem cleanL_no_newline (l : List Char) : '\n' ∉ cleanL l := by
  intro h
  unfold cleanL at h
  rcases mem_joinSp _ _ h with h0 | ⟨p, hp, hmem⟩
  · cases h0
  · rcases List.mem_filterMap.mp hp with ⟨a, ha, hfa⟩
    rcases processLine_mem a p hfa '\n' hmem with h1 | h1
    · cases h1
    · exact splitLines_no_newline l a ha h1

/-! ## Claim C10: the cleaned subtitle text is a single line -/

/-- Claim C10: for every input string and every format argument, the
subtitle-cleaning routine returns a string containing no newline character —
all surviving lines are joined into a single line of text. -/
theorem claim_C10_no_newline :
    ∀ (content format : String), '\n' ∉ (clean_subtitles content format).toList :=
  fun content _format => cleanL_no_newline content.toList

/-! ## Identity lemmas for the substitution passes -/

theorem removeTagsF_eq_self : ∀ (n : Nat) (l : List Char), '<' ∉ l →
    removeTagsF n l = l := by
  intro n
  induction n with
  | zero => intro l _; rfl
  | succ n ih =>
    intro l hl
    cases l with
    | nil => rfl
    | cons a rest =>
      have ha : a ≠ '<' := fun h => hl (h ▸ List.mem_cons_self a rest)
      rw [removeTagsF, if_neg (by simp [ha]), ih rest (fun h => hl (List.mem_cons_of_mem a h))]

theorem removeTags_eq_self (l : List Char) (hl : '<' ∉ l) : removeTags l = l :=
  removeTagsF_eq_self l.length l hl

theorem replaceNbspF_eq_self : ∀ (n : Nat) (l : List Char), '&' ∉ l →
    replaceNbspF n l = l := by
  intro n
  induction n with
  | zero => intro l _; rfl
  | succ n ih =>
    intro l hl
    cases l with
    | nil => rfl
    | cons a rest =>
      have ha : a ≠ '&' := fun h => hl (h ▸ List.mem_cons_self a rest)
      have hpre : nbspChars.isPrefixOf (a :: rest) = false := by
        cases hp : nbspChars.isPrefixOf (a :: rest)
        · rfl
        · exfalso
          have := List.isPrefixOf_iff_prefix.mp hp
          rw [nbspChars] at this
          rcases List.cons_prefix_cons.mp this with ⟨heq, _⟩
          exact ha heq.symm
      rw [replaceNbspF, if_neg (by simp [hpre]),
        ih rest (fun h => hl (List.mem_cons_of_mem a h))]

theorem replaceNbsp_eq_self (l : List Char) (hl : '&' ∉ l) : replaceNbsp l = l :=
  replaceNbspF_eq_self l.length l hl

/-! ## Guard lemmas for joined lines -/

theorem startsArrow_of_not_dash (a : Char) (l : List Char) (ha : a ≠ '-') :
    startsArrow (a :: l) = false := by
  cases l with
  | nil => rfl
  | cons d l2 =>
    cases l2 with
    | nil => rfl
    | cons e l3 => simp [startsArrow, ha]

theorem hasArrow_append_space (p t : List Char) (hp : hasArrow p = false)
    (ht : hasArrow t = false) : hasArrow (p ++ ' ' :: t) = false := by
  induction p with
  | nil =>
    rw [List.nil_append, hasArrow, startsArrow_of_not_dash ' ' t (by decide), ht]
    rfl
  | cons a p' ih =>
    rw [hasArrow] at hp
    rcases Bool.or_eq_false_iff.mp hp with ⟨hsa, hrest⟩
    rw [List.cons_append, hasArrow, ih hrest, Bool.or_false]
    cases p' with
    | nil =>
      cases t with
      | nil =>
        by_cases hd : a = '-'
        · rfl
        · exact startsArrow_of_not_dash a _ hd
      | cons e t' => simp [startsArrow]
    | cons d p'' =>
      cases p'' with
      | nil => simp [startsArrow]
      | cons e p''' => exact hsa

theorem joinSp_no_arrow : ∀ qs : List (List Char),
    (∀ q ∈ qs, hasArrow q = false) → hasArrow (joinSp qs) = false := by
  intro qs
  induction qs with
  | nil => intro _; rfl
  | cons q qs' ih =>
    intro hall
    cases qs' with
    | nil => exact hall q (List.mem_cons_self q [])
    | cons q2 qs'' =>
      rw [joinSp]
      exact hasArrow_append_space q _ (hall q (List.mem_cons_self _ _))
        (ih (fun r hr => hall r (List.mem_cons_of_mem q hr)))

theorem prefix_append_sep (pat : List Char) : ∀ (q t : List Char) (sep : Char),
    pat <+: (q ++ sep :: t) → pat <+: q ∨ sep ∈ pat := by
  induction pat with
  | nil => intro q t sep _; exact Or.inl List.nil_prefix
  | cons a pat' ih =>
    intro q t sep h
    cases q with
    | nil =>
      rcases List.cons_prefix_cons.mp h with ⟨heq, _⟩
      exact Or.inr (heq ▸ List.mem_cons_self a pat')
    | cons b q' =>
      rcases List.cons_prefix_cons.mp h with ⟨heq, hrest⟩
      rcases ih q' t sep hrest with h1 | h1
      · exact Or.inl (List.cons_prefix_cons.mpr ⟨heq, h1⟩)
      · exact Or.inr (List.mem_cons_of_mem a h1)

theorem startsWEBVTT_append_space (q t : List Char) (hq : startsWEBVTT q = false) :
    startsWEBVTT (q ++ ' ' :: t) = false := by
  cases hw : startsWEBVTT (q ++ ' ' :: t)
  · rfl
  · exfalso
    have hpre := List.isPrefixOf_iff_prefix.mp hw
    rcases prefix_append_sep webvttChars q t ' ' hpre with h1 | h1
    · have h2 : webvttChars.isPrefixOf q = true := List.isPrefixOf_iff_prefix.mpr h1
      rw [startsWEBVTT] at hq
      rw [h2] at hq
      cases hq
    · rw [webvttChars] at h1
      simp at h1

theorem isDigits_of_space (l : List Char) (h : ' ' ∈ l) : isDigits l = false := by
  rw [isDigits]
  cases hall : l.all Char.isDigit
  · simp
  · exfalso
    have := List.all_eq_true.mp hall ' ' h
    simp at this

theorem timingMatch_congr (l l' : List Char) (h : l.take 5 = l'.take 5) :
    timingMatch l = timingMatch l' := by
  rw [timingMatch, timingMatch, h]

theorem timingMatch_of_space (l : List Char) (h : ' ' ∈ l.take 5) :
    timingMatch l = false := by
  rw [timingMatch]
  cases htake : l.take 5 with
  | nil => rfl
  | cons a m1 =>
    cases m1 with
    | nil => rfl
    | cons b m2 =>
      cases m2 with
      | nil => rfl
      | cons cc m3 =>
        cases m3 with
        | nil => rfl
        | cons d m4 =>
          cases m4 with
          | nil => rfl
          | cons e m5 =>
            cases m5 with
            | cons f m6 =>
              exfalso
              have := congrArg List.length htake
              simp at this
              omega
            | nil =>
              rw [htake] at h
              simp only [List.mem_cons] at h
              rcases h with rfl | rfl | rfl | rfl | rfl | h
              · simp [Char.isDigit]
              · simp [Char.isDigit]
              · simp
              · simp [Char.isDigit]
              · simp [Char.isDigit]
              · cases h

theorem splitLines_of_no_newline : ∀ l : List Char, '\n' ∉ l → splitLines l = [l] := by
  intro l
  induction l with
  | nil => intro _; rfl
  | cons c rest ih =>
    intro h
    have hc : c ≠ '\n' := fun hh => h (hh ▸ List.mem_cons_self c rest)
    rw [splitLines, if_neg hc, ih (fun hh => h (List.mem_cons_of_mem c hh))]

theorem head_dropWhile_false (p : Char → Bool) :
    ∀ (l : List Char) (c : Char), (l.dropWhile p).head? = some c → p c = false := by
  intro l
  induction l with
  | nil => intro c h; cases h
  | cons a rest ih =>
    intro c h
    by_cases ha : p a = true
    · rw [List.dropWhile_cons, if_pos ha] at h
      exact ih c h
    · rw [List.dropWhile_cons, if_neg ha] at h
      injection h with h
      subst h
      simpa using ha

theorem prefix_head? (l1 l2 : List Char) (h : l1 <+: l2) (c : Char)
    (hc : l1.head? = some c) : l2.head? = some c := by
  rcases h with ⟨t, rfl⟩
  cases l1 with
  | nil => cases hc
  | cons a l1' =>
    injection hc with hc
    subst hc
    rfl

theorem pyStrip_head_not (l : List Char) (c : Char)
    (h : (pyStrip l).head? = some c) : isSpc c = false := by
  unfold pyStrip at h
  have hpre := List.rdropWhile_prefix isSpc (l.dropWhile isSpc)
  exact head_dropWhile_false isSpc l c
    (prefix_head? _ _ hpre c h)

theorem pyStrip_last_not (l : List Char) (c : Char)
    (h : (pyStrip l).getLast? = some c) : isSpc c = false := by
  unfold pyStrip at h
  have hne : (l.dropWhile isSpc).rdropWhile isSpc ≠ [] := by
    intro hnil
    rw [hnil] at h
    cases h
  have hlast := List.rdropWhile_last_not isSpc (l.dropWhile isSpc) hne
  rw [List.getLast?_eq_getLast_of_ne_nil hne] at h
  injection h with h
  rw [← h]
  simpa using hlast

theorem pyStrip_eq_self (l : List Char)
    (hh : ∀ c, l.head? = some c → isSpc c = false)
    (hl : ∀ c, l.getLast? = some c → isSpc c = false) : pyStrip l = l := by
  have hdrop : l.dropWhile isSpc = l := by
    cases l with
    | nil => rfl
    | cons a rest =>
      rw [List.dropWhile_cons, if_neg (by simp [hh a rfl])]
  unfold pyStrip
  rw [hdrop]
  rw [List.rdropWhile_eq_self_iff]
  intro hne
  have := hl (l.getLast hne) (List.getLast?_eq_getLast_of_ne_nil hne)
  simp [this]

theorem joinSp_head? (q : List Char) (qs : List (List Char)) (hq : q ≠ []) :
    (joinSp (q :: qs)).head? = q.head? := by
  cases qs with
  | nil => rfl
  | cons q2 qs' =>
    rw [joinSp]
    cases q with
    | nil => exact absurd rfl hq
    | cons a q' => rfl

theorem joinSp_ne_nil (q : List Char) (qs : List (List Char)) (hq : q ≠ []) :
    joinSp (q :: qs) ≠ [] := by
  intro hnil
  obtain ⟨a, q', rfl⟩ := List.exists_cons_of_ne_nil hq
  have h := joinSp_head? (a :: q') qs hq
  rw [hnil] at h
  cases h

theorem joinSp_getLast? : ∀ (qs : List (List Char)) (q : List Char),
    (∀ r ∈ q :: qs, r ≠ []) →
    ∃ qlast ∈ q :: qs, (joinSp (q :: qs)).getLast? = qlast.getLast? := by
  intro qs
  induction qs with
  | nil =>
    intro q _
    exact ⟨q, List.mem_cons_self q [], rfl⟩
  | cons q2 qs' ih =>
    intro q hne
    obtain ⟨qlast, hmem, heq⟩ := ih q2 (fun r hr => hne r (List.mem_cons_of_mem q hr))
    have hm : joinSp (q2 :: qs') ≠ [] :=
      joinSp_ne_nil q2 qs' (hne q2 (List.mem_cons_of_mem q (List.mem_cons_self q2 qs')))
    obtain ⟨c, hc⟩ : ∃ c, (joinSp (q2 :: qs')).getLast? = some c :=
      ⟨_, List.getLast?_eq_getLast_of_ne_nil hm⟩
    refine ⟨qlast, List.mem_cons_of_mem q hmem, ?_⟩
    rw [joinSp]
    show (q ++ ' ' :: joinSp (q2 :: qs')).getLast? = qlast.getLast?
    rw [List.getLast?_append]
    rw [show (' ' :: joinSp (q2 :: qs')) = [' '] ++ joinSp (q2 :: qs') from rfl,
      List.getLast?_append, hc]
    rw [hc] at heq
    rw [← heq]
    rfl

/-- The invariant satisfied by every line of `clean_subtitles` output on inputs
containing no `<` and no `&`: nonempty, stripped, and rejected by none of the
skip guards. -/
def goodPiece (q : List Char) : Prop :=
  q ≠ [] ∧
  (∀ c, q.head? = some c → isSpc c = false) ∧
  (∀ c, q.getLast? = some c → isSpc c = false) ∧
  hasArrow q = false ∧ startsWEBVTT q = false ∧ isDigits q = false ∧
  timingMatch q = false ∧ '\n' ∉ q ∧ '<' ∉ q ∧ '&' ∉ q

theorem joinSp_good_fixpoint : ∀ qs : List (List Char),
    (∀ q ∈ qs, goodPiece q) → cleanL (joinSp qs) = joinSp qs := by
  intro qs hqs
  cases qs with
  | nil => rfl
  | cons q0 qs' =>
    have hne : ∀ r ∈ q0 :: qs', r ≠ [] := fun r hr => (hqs r hr).1
    have hq0 : q0 ≠ [] := hne q0 (List.mem_cons_self q0 qs')
    have hyne : joinSp (q0 :: qs') ≠ [] := joinSp_ne_nil q0 qs' hq0
    have hNoNl : '\n' ∉ joinSp (q0 :: qs') := by
      intro h
      rcases mem_joinSp _ _ h with h0 | ⟨p, hp, hmem⟩
      · cases h0
      · exact (hqs p hp).2.2.2.2.2.2.2.1 hmem
    have hlt : '<' ∉ joinSp (q0 :: qs') := by
      intro h
      rcases mem_joinSp _ _ h with h0 | ⟨p, hp, hmem⟩
      · cases h0
      · exact (hqs p hp).2.2.2.2.2.2.2.2.1 hmem
    have hamp : '&' ∉ joinSp (q0 :: qs') := by
      intro h
      rcases mem_joinSp _ _ h with h0 | ⟨p, hp, hmem⟩
      · cases h0
      · exact (hqs p hp).2.2.2.2.2.2.2.2.2 hmem
    have hhead : ∀ c, (joinSp (q0 :: qs')).head? = some c → isSpc c = false := by
      intro c hc
      rw [joinSp_head? q0 qs' hq0] at hc
      exact (hqs q0 (List.mem_cons_self q0 qs')).2.1 c hc
    have hlast : ∀ c, (joinSp (q0 :: qs')).getLast? = some c → isSpc c = false := by
      intro c hc
      obtain ⟨qlast, hmem, heq⟩ := joinSp_getLast? qs' q0 hne
      rw [heq] at hc
      exact (hqs qlast hmem).2.2.1 c hc
    have hstrip : pyStrip (joinSp (q0 :: qs')) = joinSp (q0 :: qs') :=
      pyStrip_eq_self _ hhead hlast
    have harrow : hasArrow (joinSp (q0 :: qs')) = false :=
      joinSp_no_arrow _ (fun q hq => (hqs q hq).2.2.2.1)
    have hweb : startsWEBVTT (joinSp (q0 :: qs')) = false := by
      cases qs' with
      | nil => exact (hqs q0 (List.mem_cons_self q0 [])).2.2.2.2.1
      | cons q2 qs'' =>
        rw [joinSp]
        exact startsWEBVTT_append_space q0 _
          (hqs q0 (List.mem_cons_self q0 _)).2.2.2.2.1
    have hdig : isDigits (joinSp (q0 :: qs')) = false := by
      cases qs' with
      | nil => exact (hqs q0 (List.mem_cons_self q0 [])).2.2.2.2.2.1
      | cons q2 qs'' =>
        rw [joinSp]
        exact isDigits_of_space _
          (List.mem_append.mpr (Or.inr (List.mem_cons_self ' ' _)))
    have htim : timingMatch (joinSp (q0 :: qs')) = false := by
      cases qs' with
      | nil => exact (hqs q0 (List.mem_cons_self q0 [])).2.2.2.2.2.2.1
      | cons q2 qs'' =>
        rw [joinSp]
        rcases Nat.lt_or_ge q0.length 5 with hlen | hlen
        · apply timingMatch_of_space
          rw [List.take_append_eq_append_take]
          refine List.mem_append.mpr (Or.inr ?_)
          have h5 : 1 ≤ 5 - q0.length := by omega
          cases h5eq : 5 - q0.length with
          | zero => omega
          | succ k => simp
        · rw [timingMatch_congr (q0 ++ ' ' :: joinSp (q2 :: qs'')) q0
            (List.take_append_of_le_length hlen)]
          exact (hqs q0 (List.mem_cons_self q0 _)).2.2.2.2.2.2.1
    have hrt : removeTags (joinSp (q0 :: qs')) = joinSp (q0 :: qs') :=
      removeTags_eq_self _ hlt
    have hrn : replaceNbsp (joinSp (q0 :: qs')) = joinSp (q0 :: qs') :=
      replaceNbsp_eq_self _ hamp
    obtain ⟨a, y', hy'⟩ := List.exists_cons_of_ne_nil hyne
    have hempty : (joinSp (q0 :: qs')).isEmpty = false := by rw [hy']; rfl
    have hproc : processLine (joinSp (q0 :: qs')) = some (joinSp (q0 :: qs')) := by
      simp only [processLine]
      rw [hstrip]
      simp [hempty, harrow, hweb, hdig, htim, hrt, hrn]
    show joinSp (((splitLines (joinSp (q0 :: qs'))).filterMap processLine)) = _
    rw [splitLines_of_no_newline _ hNoNl]
    rw [show ([joinSp (q0 :: qs')].filterMap processLine) = [joinSp (q0 :: qs')] by
      simp [List.filterMap_cons, hproc]]
    rfl

theorem processLine_good (l t : List Char) (h : processLine l = some t)
    (hlt : '<' ∉ l) (hamp : '&' ∉ l) (hnl : '\n' ∉ l) : goodPiece t := by
  simp only [processLine] at h
  have hlt' : '<' ∉ pyStrip l := fun hm => hlt (mem_pyStrip l _ hm)
  have hamp' : '&' ∉ pyStrip l := fun hm => hamp (mem_pyStrip l _ hm)
  have hnl' : '\n' ∉ pyStrip l := fun hm => hnl (mem_pyStrip l _ hm)
  rw [removeTags_eq_self _ hlt', replaceNbsp_eq_self _ hamp'] at h
  split_ifs at h with h1 h2 h3 h4 h5
  injection h with h
  subst h
  refine ⟨?_, fun c hc => pyStrip_head_not l c hc, fun c hc => pyStrip_last_not l c hc,
    Bool.eq_false_iff.mpr h2, Bool.eq_false_iff.mpr h3, Bool.eq_false_iff.mpr h4,
    Bool.eq_false_iff.mpr h5, hnl', hlt', hamp'⟩
  intro hn
  apply h1
  rw [hn]
  rfl

/-! ## Claim C5: idempotence of subtitle cleaning -/

/-- Claim C5 (amended): subtitle cleaning is idempotent on every input that
contains no `<` character and no `&` character (so neither the HTML-tag
removal nor the `&nbsp;` substitution fires); on such inputs
`clean(clean(x)) = clean(x)` for any format arguments.  In general the claim
fails: the substitutions run after stripping and may leave leading whitespace
or skip-guard text that only the second pass removes. -/
theorem claim_C5_idempotent_restricted :
    ∀ (content format format2 : String),
      '<' ∉ content.toList → '&' ∉ content.toList →
      clean_subtitles (clean_subtitles content format) format2 =
        clean_subtitles content format := by
  intro content fmt fmt2 hlt hamp
  show String.mk (cleanL (String.mk (cleanL content.toList)).toList) =
    String.mk (cleanL content.toList)
  have htl : (String.mk (cleanL content.toList)).toList = cleanL content.toList := rfl
  rw [htl]
  congr 1
  have hgood : ∀ q ∈ (splitLines content.toList).filterMap processLine, goodPiece q := by
    intro q hq
    rcases List.mem_filterMap.mp hq with ⟨a, ha, hfa⟩
    exact processLine_good a q hfa
      (fun hm => hlt (mem_splitLines _ a ha '<' hm))
      (fun hm => hamp (mem_splitLines _ a ha '&' hm))
      (splitLines_no_newline _ a ha)
  exact joinSp_good_fixpoint _ hgood

/-- Counterexample to claim C5 as stated: on `"&nbsp;a"` the first pass yields
`" a"` (the entity becomes a space after stripping already happened), and the
second pass strips that space, so cleaning twice differs from cleaning once. -/
theorem claim_C5_counterexample :
    clean_subtitles (clean_subtitles "&nbsp;a" "vtt") "vtt" ≠
      clean_subtitles "&nbsp;a" "vtt" := by
  decide

/-- Witness for the amended C5 theorem on a concrete multi-line input free of
`<` and `&`. -/
theorem claim_C5_witness :
    ('<' ∉ ("WEBVTT\nhello world\n42\nsecond line" : String).toList) ∧
    ('&' ∉ ("WEBVTT\nhello world\n42\nsecond line" : String).toList) ∧
    clean_subtitles (clean_subtitles "WEBVTT\nhello world\n42\nsecond line" "vtt") "srt" =
      clean_subtitles "WEBVTT\nhello world\n42\nsecond line" "vtt" :=
  ⟨by decide, by decide,
    claim_C5_idempotent_restricted "WEBVTT\nhello world\n42\nsecond line" "vtt" "srt"
      (by decide) (by decide)⟩
